import Mathlib

/-!
Verification development for the `ai-chess-evaluator` repository.

The repository contains two parallel drafts of the same evaluator:
`api/chess_evaluator.py` (the one wired into `api/urls.py` through
`api/views.py`; modelled here in namespace `V1`) and
`api/chess/evaluator.py` (modelled in namespace `V2`).

Modelling conventions:
* Python floats are modelled as exact rationals (`ℚ`).  Every numeric
  constant appearing in the source (`0.1`, `0.2`, `10.0`, ...) is exactly
  representable, and the properties proved here (clamping bounds,
  branch selection, sorting) do not depend on rounding.
* `float('inf')` / `float('-inf')` are modelled by the extended rationals
  `XQ` below.
* The chess library (`python-chess`) is the external Position Oracle of the
  spec.  Positions and moves are opaque (`Nat` identifiers) and the oracle
  observables the search reads are the fields of the `Game` structure; the
  heuristic evaluators read a `Board` record of the structural facts they
  consume.
* Python's `list.sort` / `sorted` are stable; they are modelled by
  `List.insertionSort`, which is stable, with the comparison produced by
  `key=...` together with `reverse=is_white`.
-/

/-- Extended rationals: the value space of the search, which uses
`float('-inf')` and `float('inf')` as initial bounds. -/
inductive XQ where
  | ninf
  | fin (q : ℚ)
  | pinf
deriving DecidableEq, Repr

namespace XQ

/-- Negation, as applied by the search to child scores and bounds. -/
def neg : XQ → XQ
  | ninf => pinf
  | fin q => fin (-q)
  | pinf => ninf

/-- The order on extended rationals (Python float comparison). -/
def le : XQ → XQ → Bool
  | ninf, _ => true
  | _, pinf => true
  | pinf, ninf => false
  | pinf, fin _ => false
  | fin _, ninf => false
  | fin a, fin b => decide (a ≤ b)

/-- Python `max` on extended rationals (ties give either argument; the
values agree, so the choice is immaterial). -/
def max (a b : XQ) : XQ := if le a b then b else a

/-- Python `min` on extended rationals. -/
def min (a b : XQ) : XQ := if le b a then b else a

end XQ

/-! ### Constants (`api/chess/constants.py`) -/

/-- Source: `MAX_EVAL = 10.0`. -/
def MAX_EVAL : ℚ := 10

/-- Source: `MIN_EVAL = -10.0`. -/
def MIN_EVAL : ℚ := -10

/-- Source: `TURN_BONUS = 0.2`. -/
def TURN_BONUS : ℚ := 1/5

/-- Source: `CENTER_CONTROL_BONUS = 0.1`. -/
def CENTER_CONTROL_BONUS : ℚ := 1/10

/-- Source: `DEVELOPMENT_BONUS = 0.2`. -/
def DEVELOPMENT_BONUS : ℚ := 1/5

/-- Source: `OPENING_MOVES = 10`. -/
def OPENING_MOVES : Nat := 10

/-- The clamping idiom `max(min(x, MAX_EVAL), MIN_EVAL)` used by both
evaluator drafts. -/
def clampEval (q : ℚ) : ℚ := max (min q MAX_EVAL) MIN_EVAL

/-! ### The structural facts of a board read by the heuristic evaluators.

A `Board` records exactly the observables of a (valid) `chess.Board` that
the evaluators consume: piece counts per colour, the number of attackers of
each of the four central squares per colour, the fullmove number, the counts
of knights/bishops off their home rank, the number of legal moves, and the
side to move (`turn = true` means White, as in python-chess). -/

structure Board where
  turn : Bool
  whitePawns : Nat
  whiteKnights : Nat
  whiteBishops : Nat
  whiteRooks : Nat
  whiteQueens : Nat
  blackPawns : Nat
  blackKnights : Nat
  blackBishops : Nat
  blackRooks : Nat
  blackQueens : Nat
  whiteCenterAttacks : List Nat
  blackCenterAttacks : List Nat
  fullmoveNumber : Nat
  whiteDevelopedKnights : Nat
  whiteDevelopedBishops : Nat
  blackDevelopedKnights : Nat
  blackDevelopedBishops : Nat
  legalMovesCount : Nat
deriving DecidableEq, Repr

/-- `_basic_material_evaluation` of `api/chess/evaluator.py` (the
Heuristic Evaluator of spec section 4.1): material + center control +
opening development + mobility, clamped to `[MIN_EVAL, MAX_EVAL]`. -/
def basic_material_evaluation (b : Board) : ℚ :=
  let material : ℚ :=
    ((b.whitePawns : ℚ) * 1 + (b.whiteKnights : ℚ) * 3 + (b.whiteBishops : ℚ) * 3 +
      (b.whiteRooks : ℚ) * 5 + (b.whiteQueens : ℚ) * 9) -
    ((b.blackPawns : ℚ) * 1 + (b.blackKnights : ℚ) * 3 + (b.blackBishops : ℚ) * 3 +
      (b.blackRooks : ℚ) * 5 + (b.blackQueens : ℚ) * 9)
  let center : ℚ :=
    CENTER_CONTROL_BONUS * (b.whiteCenterAttacks.sum : ℚ) -
    CENTER_CONTROL_BONUS * (b.blackCenterAttacks.sum : ℚ)
  let development : ℚ :=
    if b.fullmoveNumber ≤ OPENING_MOVES then
      DEVELOPMENT_BONUS * ((b.whiteDevelopedKnights : ℚ) + (b.whiteDevelopedBishops : ℚ)) -
      DEVELOPMENT_BONUS * ((b.blackDevelopedKnights : ℚ) + (b.blackDevelopedBishops : ℚ))
    else 0
  let mobility : ℚ :=
    if b.turn then TURN_BONUS * (b.legalMovesCount : ℚ)
    else -(TURN_BONUS * (b.legalMovesCount : ℚ))
  clampEval (material + center + development + mobility)

/-- `basic_material_evaluation` of `api/utils/evaluation.py`: material only,
plus the side-to-move adjustment, with no clamping.  This is the function
`api/chess_evaluator.py` uses for move ordering and leaf fallback. -/
def utils_basic_material_evaluation (b : Board) : ℚ :=
  let material : ℚ :=
    ((b.whitePawns : ℚ) - (b.blackPawns : ℚ)) * 1 +
    ((b.whiteKnights : ℚ) - (b.blackKnights : ℚ)) * 3 +
    ((b.whiteBishops : ℚ) - (b.blackBishops : ℚ)) * 3 +
    ((b.whiteRooks : ℚ) - (b.blackRooks : ℚ)) * 5 +
    ((b.whiteQueens : ℚ) - (b.blackQueens : ℚ)) * 9
  if !b.turn then material - 0.2 else material

/-! ### The judgment-service response and its parsing.

`_evaluate_position_with_gpt` strips the raw completion text, keeps only
digits, `'.'` and `'-'`, rejects the degenerate strings, and feeds the rest
to Python `float`.  `strip()` removes only whitespace, which the character
filter removes as well, so it needs no separate model.  `c.isdigit()` is
modelled for the ASCII digits. -/

/-- The outcome of the `openai.Completion.create` call: either the request
raised (timeout, transport, quota, ...) or it returned some text. -/
inductive GptResponse where
  | failure
  | text (s : String)
deriving DecidableEq, Repr

/-- Source: `''.join(c for c in eval_text if c.isdigit() or c in '.-')`. -/
def cleanResponse (s : String) : String :=
  String.mk (s.data.filter (fun c => c.isDigit || c = '.' || c = '-'))

/-- Value of a digit string (most significant first). -/
def digitsVal (cs : List Char) : Nat :=
  cs.foldl (fun n c => 10 * n + (c.toNat - 48)) 0

/-- Python `float()` on a string made only of digits, `'.'` and `'-'`:
an optional single leading minus sign, then digits with at most one
decimal point and at least one digit; anything else raises `ValueError`
(modelled as `none`).  The numeric value is modelled exactly. -/
def parseFloat (s : String) : Option ℚ :=
  let cs := s.data
  let sgn : ℚ := if cs.head? = some '-' then -1 else 1
  let body := if cs.head? = some '-' then cs.tail else cs
  match body.splitOn '.' with
  | [ds] =>
      if ds.isEmpty then none
      else if ds.all Char.isDigit then some (sgn * (digitsVal ds : ℚ))
      else none
  | [ds, fs] =>
      if ds.isEmpty && fs.isEmpty then none
      else if ds.all Char.isDigit && fs.all Char.isDigit then
        some (sgn * ((digitsVal ds : ℚ) + (digitsVal fs : ℚ) / (10 : ℚ) ^ fs.length))
      else none
  | _ => none

/-- The degenerate cleaned strings rejected before parsing:
`if not cleaned_text or cleaned_text in ['-', '.', '-.']`. -/
def degenerateCleaned (c : String) : Prop :=
  c = "" ∨ c = "-" ∨ c = "." ∨ c = "-."

instance (c : String) : Decidable (degenerateCleaned c) := by
  unfold degenerateCleaned; infer_instance

namespace V2

/-- `_evaluate_position_with_gpt` of `api/chess/evaluator.py`, as a function
of the (valid) board and of the judgment-service outcome.  Every failure
path falls back to `_basic_material_evaluation`; a parsed value gets the
side-to-move adjustment and is then clamped. -/
def evaluate_position_with_gpt (b : Board) (r : GptResponse) : ℚ :=
  match r with
  | .failure => basic_material_evaluation b
  | .text s =>
      let cleaned := cleanResponse s
      if degenerateCleaned cleaned then basic_material_evaluation b
      else
        match parseFloat cleaned with
        | none => basic_material_evaluation b
        | some v =>
            let adjusted := if !b.turn then v - TURN_BONUS else v
            max (min adjusted MAX_EVAL) MIN_EVAL

end V2

/-- `validate_position` of `api/utils/validation.py`, restricted to
syntactically valid FENs (a malformed serialization is rejected by the
presentation layer before the evaluator runs): the position is reported
as an error exactly when it has no legal moves. -/
def validate_position_error (b : Board) : Bool :=
  b.legalMovesCount == 0

namespace V1

/-- `_evaluate_position_with_gpt` of `api/chess_evaluator.py`.  It first
runs `validate_position` and returns `0.0` on error; its fallback is the
module-level `basic_material_evaluation` from `api/utils/evaluation.py`
(the same function it uses for move ordering), not the unused class method
`_basic_material_evaluation`. -/
def evaluate_position_with_gpt (b : Board) (r : GptResponse) : ℚ :=
  if validate_position_error b then 0
  else
    match r with
    | .failure => utils_basic_material_evaluation b
    | .text s =>
        let cleaned := cleanResponse s
        if degenerateCleaned cleaned then utils_basic_material_evaluation b
        else
          match parseFloat cleaned with
          | none => utils_basic_material_evaluation b
          | some v =>
              let adjusted := if !b.turn then v - 0.2 else v
              max (min adjusted 10) (-10)

end V1

/-! ### The abstract game tree.

The search code is parametric in the Position Oracle (python-chess) and in
the Leaf Evaluator.  Positions and moves are opaque `Nat` identifiers; a
`Game` bundles the oracle observables the search reads together with the
leaf evaluator (spec section 4.2) and the heuristic used as the
move-ordering key. -/

structure Game where
  /-- `board.turn` of the position: `true` = White to move. -/
  turn : Nat → Bool
  /-- `board.legal_moves`, in generation order. -/
  legalMoves : Nat → List Nat
  /-- `board.push(move)`: the position resulting from a legal move. -/
  applyMove : Nat → Nat → Nat
  /-- `board.is_game_over()`. -/
  gameOver : Nat → Bool
  /-- `board.is_checkmate()`. -/
  checkmate : Nat → Bool
  /-- The pluggable leaf evaluator called at depth 0. -/
  leafEval : Nat → ℚ
  /-- The heuristic scoring of a position, used as the move-ordering key
  (`basic_material_evaluation` in V1, `_basic_material_evaluation` in V2). -/
  heuristic : Nat → ℚ

/-- `_get_moves_and_resulting_positions` / `_get_moves_and_positions`:
each legal move paired with the position it leads to.  (The extra
`validate_move` re-check in V1 never rejects a generated legal move:
pushing a legal move always flips the side to move, hence always changes
the FEN; the filter is therefore the identity and is modelled as such.) -/
def movesAndPositions (g : Game) (p : Nat) : List (Nat × Nat) :=
  (g.legalMoves p).map (fun m => (m, g.applyMove p m))

/-- The comparison realizing
`moves_and_positions.sort(key=lambda x: heuristic(x[1]), reverse=is_white)`. -/
def pairRel (g : Game) : Bool → (Nat × Nat) → (Nat × Nat) → Prop
  | true, x, y => g.heuristic y.2 ≤ g.heuristic x.2
  | false, x, y => g.heuristic x.2 ≤ g.heuristic y.2

instance (g : Game) (isW : Bool) : DecidableRel (pairRel g isW) := fun x y => by
  cases isW <;> exact inferInstanceAs (Decidable (_ ≤ _))

/-- The ordered move list explored by the loop. -/
def orderedMoves (g : Game) (isW : Bool) (p : Nat) : List (Nat × Nat) :=
  List.insertionSort (pairRel g isW) (movesAndPositions g p)

/-- `EvaluationLine` of `api/utils/evaluation.py` as built by
`api/chess_evaluator.py`: a move, its evaluation, and
`continuation=[line.move for line in child_lines]`. -/
structure EvalLine where
  move : Nat
  evaluation : XQ
  continuation : List Nat
deriving DecidableEq, Repr

/-- The comparison realizing
`evaluations.sort(key=lambda x: x.evaluation, reverse=is_white)`. -/
def lineRel : Bool → EvalLine → EvalLine → Prop
  | true, x, y => XQ.le y.evaluation x.evaluation = true
  | false, x, y => XQ.le x.evaluation y.evaluation = true

instance (isW : Bool) : DecidableRel (lineRel isW) := fun x y => by
  cases isW <;> exact inferInstanceAs (Decidable (_ = true))

/-- The line records of `api/chess/evaluator.py`:
`{"move": ..., "evaluation": ..., "lines": child_lines}` (the child's full
line list is nested, unlike V1's `continuation`). -/
inductive MLine where
  | mk (move : Nat) (evaluation : XQ) (lines : List MLine)

/-- The `"move"` entry of a V2 line record. -/
def MLine.move : MLine → Nat
  | .mk m _ _ => m

/-- The `"evaluation"` entry of a V2 line record. -/
def MLine.evaluation : MLine → XQ
  | .mk _ e _ => e

/-- The comparison realizing
`evaluations.sort(key=lambda x: x["evaluation"], reverse=is_white)`. -/
def mlineRel : Bool → MLine → MLine → Prop
  | true, x, y => XQ.le y.evaluation x.evaluation = true
  | false, x, y => XQ.le x.evaluation y.evaluation = true

instance (isW : Bool) : DecidableRel (mlineRel isW) := fun x y => by
  cases isW <;> exact inferInstanceAs (Decidable (_ = true))

namespace V1

/-- The body of the `for move, resulting_fen in moves_and_positions:` loop
of `evaluate_at_depth` in `api/chess_evaluator.py`.  `f` is the recursive
call one ply deeper; the loop threads `best_value`, `alpha`, `beta` and the
accumulated `evaluations`, and `break`s on `beta <= alpha`. -/
def evalLoop (f : Nat → XQ → XQ → XQ × List EvalLine) (isW : Bool) :
    List (Nat × Nat) → XQ → XQ → XQ → List EvalLine → XQ × List EvalLine
  | [], best, _, _, acc => (best, acc)
  | (m, c) :: rest, best, a, b, acc =>
      let r := f c b.neg a.neg
      let e := r.1.neg
      let line : EvalLine := ⟨m, e, r.2.map (·.move)⟩
      let acc' := acc ++ [line]
      let best' := if isW then best.max e else best.min e
      let a' := if isW then a.max best' else a
      let b' := if isW then b else b.min best'
      if b'.le a' then (best', acc')
      else evalLoop f isW rest best' a' b' acc'

/-- `evaluate_at_depth` of `api/chess_evaluator.py`.  Order of the guards,
as in the source: `validate_position` (which errors exactly on
no-legal-moves positions, returning `0.0` with no lines), then the depth-0
frontier, then `is_game_over`, then the ordered alpha-beta loop followed by
the in-place sort of the collected lines. -/
def evaluate_at_depth (g : Game) : Nat → Nat → XQ → XQ → XQ × List EvalLine
  | 0, p, _, _ =>
      if (g.legalMoves p).isEmpty then (XQ.fin 0, [])
      else (XQ.fin (g.leafEval p), [])
  | d + 1, p, a, b =>
      if (g.legalMoves p).isEmpty then (XQ.fin 0, [])
      else if g.gameOver p then
        (if g.checkmate p then (if g.turn p then XQ.fin (-10) else XQ.fin 10)
         else XQ.fin 0, [])
      else
        let isW := g.turn p
        let r := evalLoop (fun c a' b' => evaluate_at_depth g d c a' b') isW
          (orderedMoves g isW p) (if isW then XQ.ninf else XQ.pinf) a b []
        (r.1, List.insertionSort (lineRel isW) r.2)

/-- Modelled from the spec: the loop of an unpruned full-width minimax over
the same tree ("alpha-beta equivalence ... an unpruned full-width minimax
over the same tree"): identical to `evalLoop` but with no bounds and no
cutoff, so every ordered move is explored. -/
def minimaxLoop (f : Nat → XQ × List EvalLine) (isW : Bool) :
    List (Nat × Nat) → XQ → List EvalLine → XQ × List EvalLine
  | [], best, acc => (best, acc)
  | (m, c) :: rest, best, acc =>
      let r := f c
      let e := r.1.neg
      let line : EvalLine := ⟨m, e, r.2.map (·.move)⟩
      minimaxLoop f isW rest (if isW then best.max e else best.min e) (acc ++ [line])

/-- Modelled from the spec: unpruned full-width minimax over the same game
tree, with the same guards, ordering, perspective negation and final sort
as `evaluate_at_depth`, but never skipping a sibling. -/
def minimax_at_depth (g : Game) : Nat → Nat → XQ × List EvalLine
  | 0, p =>
      if (g.legalMoves p).isEmpty then (XQ.fin 0, [])
      else (XQ.fin (g.leafEval p), [])
  | d + 1, p =>
      if (g.legalMoves p).isEmpty then (XQ.fin 0, [])
      else if g.gameOver p then
        (if g.checkmate p then (if g.turn p then XQ.fin (-10) else XQ.fin 10)
         else XQ.fin 0, [])
      else
        let isW := g.turn p
        let r := minimaxLoop (fun c => minimax_at_depth g d c) isW
          (orderedMoves g isW p) (if isW then XQ.ninf else XQ.pinf) []
        (r.1, List.insertionSort (lineRel isW) r.2)

end V1

namespace V2

/-- The move loop of `evaluate_at_depth` in `api/chess/evaluator.py`: the
same bound updates and cutoff as V1, but it only accumulates the line
records (the returned score is taken from the sorted list afterwards), and
each record nests the child's full line list. -/
def evalLoopM (f : Nat → XQ → XQ → XQ × List MLine) (isW : Bool) :
    List (Nat × Nat) → XQ → XQ → XQ → List MLine → List MLine
  | [], _, _, _, acc => acc
  | (m, c) :: rest, best, a, b, acc =>
      let r := f c b.neg a.neg
      let e := r.1.neg
      let acc' := acc ++ [MLine.mk m e r.2]
      let best' := if isW then best.max e else best.min e
      let a' := if isW then a.max best' else a
      let b' := if isW then b else b.min best'
      if b'.le a' then acc'
      else evalLoopM f isW rest best' a' b' acc'

/-- `evaluate_at_depth` of `api/chess/evaluator.py`: depth-0 frontier, then
`is_game_over` (there is no inner `validate_position` in this draft), then
the ordered loop; it returns the sorted line records together with
`evaluations[0]["evaluation"] if evaluations else 0`. -/
def evaluate_at_depth (g : Game) : Nat → Nat → XQ → XQ → XQ × List MLine
  | 0, p, _, _ => (XQ.fin (g.leafEval p), [])
  | d + 1, p, a, b =>
      if g.gameOver p then
        (if g.checkmate p then (if g.turn p then XQ.fin (-MAX_EVAL) else XQ.fin MAX_EVAL)
         else XQ.fin 0, [])
      else
        let isW := g.turn p
        let evals := evalLoopM (fun c a' b' => evaluate_at_depth g d c a' b') isW
          (orderedMoves g isW p) (if isW then XQ.ninf else XQ.pinf) a b []
        let sorted := List.insertionSort (mlineRel isW) evals
        (match sorted with
         | [] => XQ.fin 0
         | l :: _ => l.evaluation, sorted)

end V2

/-- The error outcomes of `evaluate_recursive` in `api/chess_evaluator.py`
(the message strings of the source, abstracted to an enumeration). -/
inductive EvalError where
  /-- `validate_position` failed at the root (the message is the
  no-legal-moves message, since malformed FENs are out of scope here). -/
  | invalidPosition
  /-- The depth-below-1 message. -/
  | depthTooSmall
  /-- The no-valid-moves message. -/
  | noValidMoves
deriving DecidableEq, Repr

/-- `EvaluationResult` of `api/utils/evaluation.py`. -/
structure EvalResult where
  best_move : Option Nat
  evaluation : Option XQ
  all_lines : List EvalLine
  error : Option EvalError
deriving DecidableEq, Repr

namespace V1

/-- `evaluate_recursive` of `api/chess_evaluator.py`: root validation,
depth check, the alpha-beta search from the full window, the emptiness
check, the top-level re-sort with `reverse=board.turn`, and the truncation
of `all_lines` to the top 5. -/
def evaluate_recursive (g : Game) (p : Nat) (d : Nat) : EvalResult :=
  if (g.legalMoves p).isEmpty then ⟨none, none, [], some .invalidPosition⟩
  else if d < 1 then ⟨none, none, [], some .depthTooSmall⟩
  else
    let r := evaluate_at_depth g d p XQ.ninf XQ.pinf
    if r.2.isEmpty then ⟨none, none, [], some .noValidMoves⟩
    else
      let sorted := List.insertionSort (lineRel (g.turn p)) r.2
      ⟨some (sorted.headD ⟨0, XQ.fin 0, []⟩).move, some r.1, sorted.take 5, none⟩

/-- Modelled from the spec: `evaluate_recursive` with the unpruned
full-width minimax in place of the alpha-beta search, everything else
unchanged. -/
def evaluate_recursive_full (g : Game) (p : Nat) (d : Nat) : EvalResult :=
  if (g.legalMoves p).isEmpty then ⟨none, none, [], some .invalidPosition⟩
  else if d < 1 then ⟨none, none, [], some .depthTooSmall⟩
  else
    let r := minimax_at_depth g d p
    if r.2.isEmpty then ⟨none, none, [], some .noValidMoves⟩
    else
      let sorted := List.insertionSort (lineRel (g.turn p)) r.2
      ⟨some (sorted.headD ⟨0, XQ.fin 0, []⟩).move, some r.1, sorted.take 5, none⟩

end V1

/-- The bound shape maintained down the recursion from a full root window:
White nodes have `beta = +inf` (and a never-`+inf` `alpha`), Black nodes
have `alpha = -inf` (and a never-`-inf` `beta`).  The search passes
negated-and-swapped bounds to the child but updates only `alpha` at White
nodes and only `beta` at Black nodes, so this shape is preserved — and
under it the cutoff `beta <= alpha` can never fire. -/
def boundInv : Bool → XQ → XQ → Prop
  | true, a, b => b = XQ.pinf ∧ a ≠ XQ.pinf
  | false, a, b => a = XQ.ninf ∧ b ≠ XQ.ninf

/-! ### Concrete inputs used by witnesses and counterexamples. -/

/-- A concrete board with White to move (all heuristic inputs populated). -/
def sampleBoardWhite : Board :=
  { turn := true, whitePawns := 8, whiteKnights := 2, whiteBishops := 2,
    whiteRooks := 2, whiteQueens := 1, blackPawns := 8, blackKnights := 2,
    blackBishops := 2, blackRooks := 2, blackQueens := 1,
    whiteCenterAttacks := [1, 1, 1, 1], blackCenterAttacks := [1, 1, 1, 1],
    fullmoveNumber := 1, whiteDevelopedKnights := 0, whiteDevelopedBishops := 0,
    blackDevelopedKnights := 0, blackDevelopedBishops := 0, legalMovesCount := 20 }

/-- The same board with Black to move. -/
def sampleBoardBlack : Board :=
  { sampleBoardWhite with turn := false }

/-- A board with no legal moves (checkmate or stalemate). -/
def matedBoard : Board :=
  { sampleBoardWhite with legalMovesCount := 0 }

/-- A concrete game with alternating sides: position `p` is White to move
when `p` is even, every move leads to a position of the opposite parity,
positions below `5` have two legal moves, and the leaf/heuristic scores are
the position identifiers. -/
def sampleGame : Game :=
  { turn := fun p => p % 2 == 0,
    legalMoves := fun p => if p < 5 then [0, 1] else [],
    applyMove := fun p m => p + 2 * m + 1,
    gameOver := fun _ => false,
    checkmate := fun _ => false,
    leafEval := fun p => (p : ℚ),
    heuristic := fun p => (p : ℚ) }

/-- A concrete three-level game used to exhibit the recorded
`continuation`: the root `0` (White) has the single move `0` to position
`1`; Black at `1` has moves `0`, `1` to the leaves `2`, `3`. -/
def pvGame : Game :=
  { turn := fun p => p == 0,
    legalMoves := fun p => if p == 0 then [0] else if p == 1 then [0, 1] else [0],
    applyMove := fun p m => if p == 0 then 1 else (if m == 0 then 2 else 3),
    gameOver := fun _ => false,
    checkmate := fun _ => false,
    leafEval := fun p => if p == 2 then 1 else 2,
    heuristic := fun p => (p : ℚ) }

/-- A concrete game in which position `1` is a checkmate: White to move,
no legal moves, `is_game_over` and `is_checkmate` both true. -/
def matedGame : Game :=
  { turn := fun _ => true,
    legalMoves := fun p => if p == 0 then [0] else [],
    applyMove := fun _ _ => 1,
    gameOver := fun p => p != 0,
    checkmate := fun p => p != 0,
    leafEval := fun _ => 0,
    heuristic := fun _ => 0 }

/-! ### Helper lemmas -/

theorem xq_le_total (a b : XQ) : XQ.le a b = true ∨ XQ.le b a = true := by
  cases a <;> cases b <;> simp [XQ.le]
  · exact le_total _ _

theorem xq_le_trans {a b c : XQ} (h1 : XQ.le a b = true) (h2 : XQ.le b c = true) :
    XQ.le a c = true := by
  cases a <;> cases b <;> cases c <;> simp_all [XQ.le]
  · exact le_trans h1 h2

instance (isW : Bool) : IsTotal EvalLine (lineRel isW) := by
  cases isW
  · exact ⟨fun x y => xq_le_total _ _⟩
  · exact ⟨fun x y => (xq_le_total _ _).symm⟩

instance (isW : Bool) : IsTrans EvalLine (lineRel isW) := by
  cases isW
  · exact ⟨fun _ _ _ h1 h2 => xq_le_trans h1 h2⟩
  · exact ⟨fun _ _ _ h1 h2 => xq_le_trans h2 h1⟩

instance (isW : Bool) : IsTotal MLine (mlineRel isW) := by
  cases isW
  · exact ⟨fun x y => xq_le_total _ _⟩
  · exact ⟨fun x y => (xq_le_total _ _).symm⟩

instance (isW : Bool) : IsTrans MLine (mlineRel isW) := by
  cases isW
  · exact ⟨fun _ _ _ h1 h2 => xq_le_trans h1 h2⟩
  · exact ⟨fun _ _ _ h1 h2 => xq_le_trans h2 h1⟩

theorem xq_le_pinf_left {a : XQ} (h : XQ.le XQ.pinf a = true) : a = XQ.pinf := by
  cases a <;> simp_all [XQ.le]

theorem xq_le_ninf_right {a : XQ} (h : XQ.le a XQ.ninf = true) : a = XQ.ninf := by
  cases a <;> simp_all [XQ.le]

theorem xq_max_ne_pinf {a b : XQ} (ha : a ≠ XQ.pinf) (hb : b ≠ XQ.pinf) :
    XQ.max a b ≠ XQ.pinf := by
  unfold XQ.max; split <;> assumption

theorem xq_min_ne_ninf {a b : XQ} (ha : a ≠ XQ.ninf) (hb : b ≠ XQ.ninf) :
    XQ.min a b ≠ XQ.ninf := by
  unfold XQ.min; split <;> assumption

theorem xq_neg_ne_ninf {a : XQ} (h : a ≠ XQ.pinf) : a.neg ≠ XQ.ninf := by
  cases a <;> simp_all [XQ.neg]

theorem xq_neg_ne_pinf {a : XQ} (h : a ≠ XQ.ninf) : a.neg ≠ XQ.pinf := by
  cases a <;> simp_all [XQ.neg]

theorem xq_fin_ne_pinf (q : ℚ) : XQ.fin q ≠ XQ.pinf := by simp

theorem xq_fin_ne_ninf (q : ℚ) : XQ.fin q ≠ XQ.ninf := by simp

theorem xq_max_fin_of {a : XQ} (q : ℚ) (h : a = XQ.ninf ∨ ∃ r, a = XQ.fin r) :
    ∃ r, XQ.max a (XQ.fin q) = XQ.fin r := by
  rcases h with h | ⟨r, h⟩ <;> subst h
  · exact ⟨q, rfl⟩
  · unfold XQ.max; split
    · exact ⟨q, rfl⟩
    · exact ⟨r, rfl⟩

theorem xq_min_fin_of {a : XQ} (q : ℚ) (h : a = XQ.pinf ∨ ∃ r, a = XQ.fin r) :
    ∃ r, XQ.min a (XQ.fin q) = XQ.fin r := by
  rcases h with h | ⟨r, h⟩ <;> subst h
  · exact ⟨q, rfl⟩
  · unfold XQ.min; split
    · exact ⟨q, rfl⟩
    · exact ⟨r, rfl⟩

theorem clampEval_ge (q : ℚ) : MIN_EVAL ≤ clampEval q := le_max_right _ _

theorem clampEval_le (q : ℚ) : clampEval q ≤ MAX_EVAL := by
  unfold clampEval MAX_EVAL MIN_EVAL
  exact max_le (min_le_right _ _) (by norm_num)

namespace V1

theorem evalLoop_eq_minimaxLoop (isW : Bool)
    (f1 : Nat → XQ → XQ → XQ × List EvalLine) (f2 : Nat → XQ × List EvalLine)
    (ms : List (Nat × Nat)) :
    ∀ (best a b : XQ) (acc : List EvalLine),
      (∀ mc ∈ ms, ∀ a' b', boundInv (!isW) a' b' → f1 mc.2 a' b' = f2 mc.2) →
      (∀ mc ∈ ms, ∃ q, (f2 mc.2).1 = XQ.fin q) →
      boundInv isW a b →
      best ≠ (if isW then XQ.pinf else XQ.ninf) →
      evalLoop f1 isW ms best a b acc = minimaxLoop f2 isW ms best acc := by
  induction ms with
  | nil => intro best a b acc _ _ _ _; rfl
  | cons mc rest ih =>
    intro best a b acc hf hfin hab hbest
    obtain ⟨m, c⟩ := mc
    have hchild : boundInv (!isW) b.neg a.neg := by
      cases isW
      · exact ⟨by rw [hab.1]; rfl, xq_neg_ne_pinf hab.2⟩
      · exact ⟨by rw [hab.1]; rfl, xq_neg_ne_ninf hab.2⟩
    have heq : f1 c b.neg a.neg = f2 c :=
      hf (m, c) (List.mem_cons_self _ _) b.neg a.neg hchild
    obtain ⟨q, hq⟩ := hfin (m, c) (List.mem_cons_self _ _)
    have hbest' :
        (if isW then best.max ((f2 c).1.neg) else best.min ((f2 c).1.neg)) ≠
          (if isW then XQ.pinf else XQ.ninf) := by
      cases isW
      · simp only [Bool.false_eq_true, ite_false]
        exact xq_min_ne_ninf (by simpa using hbest) (by rw [hq]; exact xq_fin_ne_ninf _)
      · simp only [ite_true]
        exact xq_max_ne_pinf (by simpa using hbest) (by rw [hq]; exact xq_fin_ne_pinf _)
    have hcut :
        ((if isW then b else b.min (if isW then best.max ((f2 c).1.neg)
            else best.min ((f2 c).1.neg))).le
          (if isW then a.max (if isW then best.max ((f2 c).1.neg)
            else best.min ((f2 c).1.neg)) else a)) = false := by
      cases isW
      · simp only [Bool.false_eq_true, ite_false]
        apply Bool.eq_false_iff.mpr
        intro hle
        rw [hab.1] at hle
        exact xq_min_ne_ninf hab.2 (by simpa using hbest') (xq_le_ninf_right hle)
      · simp only [ite_true]
        apply Bool.eq_false_iff.mpr
        intro hle
        rw [hab.1] at hle
        exact xq_max_ne_pinf hab.2 (by simpa using hbest') (xq_le_pinf_left hle)
    have hab' :
        boundInv isW
          (if isW then a.max (if isW then best.max ((f2 c).1.neg)
            else best.min ((f2 c).1.neg)) else a)
          (if isW then b else b.min (if isW then best.max ((f2 c).1.neg)
            else best.min ((f2 c).1.neg))) := by
      cases isW
      · exact ⟨hab.1, xq_min_ne_ninf hab.2 (by simpa using hbest')⟩
      · exact ⟨hab.1, xq_max_ne_pinf hab.2 (by simpa using hbest')⟩
    simp only [evalLoop, minimaxLoop, heq, hcut, Bool.false_eq_true, ite_false]
    exact ih _ _ _ _ (fun mc hmc => hf mc (List.mem_cons_of_mem _ hmc))
      (fun mc hmc => hfin mc (List.mem_cons_of_mem _ hmc)) hab' hbest'

theorem minimaxLoop_fst_fin (f2 : Nat → XQ × List EvalLine) (isW : Bool) :
    ∀ (ms : List (Nat × Nat)) (best : XQ) (acc : List EvalLine),
      (∀ mc ∈ ms, ∃ q, (f2 mc.2).1 = XQ.fin q) →
      ((∃ q, best = XQ.fin q) ∨
        (best = (if isW then XQ.ninf else XQ.pinf) ∧ ms ≠ [])) →
      ∃ q, (minimaxLoop f2 isW ms best acc).1 = XQ.fin q := by
  intro ms
  induction ms with
  | nil =>
    intro best acc _ hstart
    rcases hstart with ⟨q, hq⟩ | ⟨_, hne⟩
    · exact ⟨q, by simp [minimaxLoop, hq]⟩
    · exact absurd rfl hne
  | cons mc rest ih =>
    intro best acc hfin hstart
    obtain ⟨m, c⟩ := mc
    obtain ⟨q, hq⟩ := hfin (m, c) (List.mem_cons_self _ _)
    have hnext : ∃ r, (if isW then best.max ((f2 c).1.neg)
        else best.min ((f2 c).1.neg)) = XQ.fin r := by
      rw [hq]
      cases isW
      · simp only [Bool.false_eq_true, ite_false]
        apply xq_min_fin_of
        rcases hstart with ⟨r, hr⟩ | ⟨hr, _⟩
        · exact Or.inr ⟨r, hr⟩
        · exact Or.inl (by simpa using hr)
      · simp only [ite_true]
        apply xq_max_fin_of
        rcases hstart with ⟨r, hr⟩ | ⟨hr, _⟩
        · exact Or.inr ⟨r, hr⟩
        · exact Or.inl (by simpa using hr)
    simp only [minimaxLoop]
    exact ih _ _ (fun mc hmc => hfin mc (List.mem_cons_of_mem _ hmc)) (Or.inl hnext)

theorem orderedMoves_ne_nil (g : Game) (isW : Bool) (p : Nat)
    (h : (g.legalMoves p).isEmpty = false) : orderedMoves g isW p ≠ [] := by
  intro hnil
  have hlen : (orderedMoves g isW p).length = (movesAndPositions g p).length :=
    (List.perm_insertionSort _ _).length_eq
  rw [hnil] at hlen
  have hzero : (g.legalMoves p).length = 0 := by
    simpa [movesAndPositions] using hlen.symm
  have hnil2 : g.legalMoves p = [] := List.length_eq_zero.mp hzero
  simp [hnil2] at h

theorem minimax_fin (g : Game) :
    ∀ (d p : Nat), ∃ q, (minimax_at_depth g d p).1 = XQ.fin q := by
  intro d
  induction d with
  | zero =>
    intro p
    by_cases h : (g.legalMoves p).isEmpty <;>
      simp [minimax_at_depth, h]
  | succ d ih =>
    intro p
    by_cases hmv : (g.legalMoves p).isEmpty
    · exact ⟨0, by simp [minimax_at_depth, hmv]⟩
    · by_cases hgo : g.gameOver p
      · by_cases hcm : g.checkmate p
        · by_cases ht : g.turn p
          · exact ⟨-10, by simp [minimax_at_depth, hmv, hgo, hcm, ht]⟩
          · exact ⟨10, by simp [minimax_at_depth, hmv, hgo, hcm, ht]⟩
        · exact ⟨0, by simp [minimax_at_depth, hmv, hgo, hcm]⟩
      · have hms := orderedMoves_ne_nil g (g.turn p) p (by simpa using hmv)
        obtain ⟨q, hq⟩ := minimaxLoop_fst_fin (fun c => minimax_at_depth g d c)
          (g.turn p) (orderedMoves g (g.turn p) p)
          (if g.turn p then XQ.ninf else XQ.pinf) []
          (fun mc _ => ih mc.2) (Or.inr ⟨rfl, hms⟩)
        exact ⟨q, by simpa [minimax_at_depth, hmv, hgo] using hq⟩

theorem evaluate_at_depth_eq_minimax (g : Game)
    (halternate : ∀ p m, g.turn (g.applyMove p m) = !g.turn p) :
    ∀ (d p : Nat) (a b : XQ), boundInv (g.turn p) a b →
      evaluate_at_depth g d p a b = minimax_at_depth g d p := by
  intro d
  induction d with
  | zero => intro p a b _; rfl
  | succ d ih =>
    intro p a b hab
    by_cases hmv : (g.legalMoves p).isEmpty
    · simp [evaluate_at_depth, minimax_at_depth, hmv]
    · by_cases hgo : g.gameOver p
      · simp [evaluate_at_depth, minimax_at_depth, hmv, hgo]
      · have hmem : ∀ mc ∈ orderedMoves g (g.turn p) p,
            g.turn mc.2 = !g.turn p := by
          intro mc hmc
          have hmp : mc ∈ movesAndPositions g p :=
            (List.perm_insertionSort _ _).mem_iff.mp hmc
          obtain ⟨m, _, hm⟩ := List.mem_map.mp hmp
          rw [← hm]
          exact halternate p m
        have hloop := evalLoop_eq_minimaxLoop (g.turn p)
          (fun c a' b' => evaluate_at_depth g d c a' b')
          (fun c => minimax_at_depth g d c)
          (orderedMoves g (g.turn p) p)
          (if g.turn p then XQ.ninf else XQ.pinf) a b []
          (fun mc hmc a' b' hinv => by
            apply ih
            rw [hmem mc hmc]
            exact hinv)
          (fun mc _ => minimax_fin g d mc.2)
          hab
          (by cases hgt : g.turn p <;> simp)
        simp only [evaluate_at_depth, minimax_at_depth, hmv, hgo,
          Bool.false_eq_true, ite_false, if_false]
        rw [hloop]

theorem minimaxLoop_snd (f2 : Nat → XQ × List EvalLine) (isW : Bool) :
    ∀ (ms : List (Nat × Nat)) (best : XQ) (acc : List EvalLine),
      (minimaxLoop f2 isW ms best acc).2 =
        acc ++ ms.map (fun mc =>
          ⟨mc.1, (f2 mc.2).1.neg, (f2 mc.2).2.map (·.move)⟩) := by
  intro ms
  induction ms with
  | nil => intro best acc; simp [minimaxLoop]
  | cons mc rest ih =>
    intro best acc
    obtain ⟨m, c⟩ := mc
    simp [minimaxLoop, ih]

theorem turn_alternates_in_sampleGame :
    ∀ p m, sampleGame.turn (sampleGame.applyMove p m) = !sampleGame.turn p := by
  intro p m
  show ((p + 2 * m + 1) % 2 == 0) = !(p % 2 == 0)
  have h : (p + 2 * m + 1) % 2 = (p + 1) % 2 := by omega
  rw [h]
  rcases Nat.mod_two_eq_zero_or_one p with hp | hp
  · have h1 : (p + 1) % 2 = 1 := by omega
    simp [h1, hp]
  · have h1 : (p + 1) % 2 = 0 := by omega
    simp [h1, hp]

end V1

/-! ### Claim theorems -/

/-- C7: the Heuristic Evaluator (`_basic_material_evaluation` of
`api/chess/evaluator.py`) is a total function of the board facts it reads,
and on every input its result lies in the closed interval
`[MIN_EVAL, MAX_EVAL] = [-10, 10]`: the material + center-control +
development + mobility sum is clamped before being returned. -/
theorem heuristic_evaluator_bounded (b : Board) :
    MIN_EVAL ≤ basic_material_evaluation b ∧
    basic_material_evaluation b ≤ MAX_EVAL := by
  unfold basic_material_evaluation
  exact ⟨clampEval_ge _, clampEval_le _⟩

/-- C9: for every position with no legal moves, the GPT leaf evaluator of
`api/chess_evaluator.py` returns exactly `0.0`, for every possible
judgment-service outcome (so it never contacts the service, never applies
the side-to-move adjustment and never returns a mate score): its
`validate_position` call classifies any no-legal-moves position as invalid
and short-circuits. -/
theorem gpt_leaf_zero_on_terminal (b : Board) (r : GptResponse)
    (h : b.legalMovesCount = 0) :
    V1.evaluate_position_with_gpt b r = 0 := by
  unfold V1.evaluate_position_with_gpt validate_position_error
  simp [h]

/-- Witness for C9 at a concrete mated board and a parseable response the
evaluator nevertheless ignores. -/
theorem gpt_leaf_zero_on_terminal_witness :
    matedBoard.legalMovesCount = 0 ∧
    V1.evaluate_position_with_gpt matedBoard (GptResponse.text ("7.5")) = 0 :=
  ⟨rfl, gpt_leaf_zero_on_terminal matedBoard (GptResponse.text ("7.5")) rfl⟩

/-- C4: whenever the judgment-service response cleans to the empty string
or to one of the degenerate strings, or the request itself raises, the
Leaf Evaluator of `api/chess/evaluator.py` returns exactly the Heuristic
Evaluator's score of the position (and, being a total function, lets no
failure propagate). -/
theorem gpt_leaf_falls_back_to_heuristic (b : Board) (r : GptResponse)
    (h : r = GptResponse.failure ∨
      ∃ s, r = GptResponse.text s ∧ degenerateCleaned (cleanResponse s)) :
    V2.evaluate_position_with_gpt b r = basic_material_evaluation b := by
  rcases h with h | ⟨s, h, hdeg⟩
  · subst h; rfl
  · subst h
    simp only [V2.evaluate_position_with_gpt]
    rw [if_pos hdeg]

/-- Witness for C4 at a concrete board and the response text whose cleaned
form is empty. -/
theorem gpt_leaf_falls_back_to_heuristic_witness :
    (GptResponse.text ("abc") = GptResponse.failure ∨
      ∃ s, GptResponse.text ("abc") = GptResponse.text s ∧
        degenerateCleaned (cleanResponse s)) ∧
    V2.evaluate_position_with_gpt sampleBoardWhite (GptResponse.text ("abc")) =
      basic_material_evaluation sampleBoardWhite := by
  have h : GptResponse.text ("abc") = GptResponse.failure ∨
      ∃ s, GptResponse.text ("abc") = GptResponse.text s ∧
        degenerateCleaned (cleanResponse s) :=
    Or.inr ⟨"abc", rfl, by decide⟩
  exact ⟨h, gpt_leaf_falls_back_to_heuristic sampleBoardWhite _ h⟩

/-- C10: on every successful numeric parse, the Leaf Evaluator of
`api/chess/evaluator.py` applies the side-to-move adjustment (subtracting
`TURN_BONUS = 0.2` when Black is to move) before clamping, so its result
always lies within `[MIN_EVAL, MAX_EVAL]`; and both boundary values stay
reachable after the adjustment (shown at Black-to-move inputs parsing to
`10.2` and `-9.8`). -/
theorem gpt_leaf_adjusts_then_clamps (b : Board) (s : String) (v : ℚ)
    (hp : parseFloat (cleanResponse s) = some v) :
    V2.evaluate_position_with_gpt b (GptResponse.text s) =
      max (min (if !b.turn then v - TURN_BONUS else v) MAX_EVAL) MIN_EVAL ∧
    MIN_EVAL ≤ V2.evaluate_position_with_gpt b (GptResponse.text s) ∧
    V2.evaluate_position_with_gpt b (GptResponse.text s) ≤ MAX_EVAL ∧
    V2.evaluate_position_with_gpt sampleBoardBlack (GptResponse.text ("10.2")) =
      MAX_EVAL ∧
    V2.evaluate_position_with_gpt sampleBoardBlack (GptResponse.text ("-9.8")) =
      MIN_EVAL := by
  have hdeg : ¬ degenerateCleaned (cleanResponse s) := by
    intro hd
    rcases hd with h0 | h0 | h0 | h0 <;> rw [h0] at hp <;> exact Option.noConfusion hp
  have hmain : V2.evaluate_position_with_gpt b (GptResponse.text s) =
      max (min (if !b.turn then v - TURN_BONUS else v) MAX_EVAL) MIN_EVAL := by
    simp only [V2.evaluate_position_with_gpt]
    rw [if_neg hdeg, hp]
  have hb1 : V2.evaluate_position_with_gpt sampleBoardBlack
      (GptResponse.text ("10.2")) = MAX_EVAL := by
    have hc : cleanResponse ("10.2") = ("10.2") := by decide
    have hp2 : parseFloat (cleanResponse ("10.2")) = some (51/5) := by
      rw [hc]
      simp [parseFloat, digitsVal, List.splitOn, List.splitOnP, List.splitOnP.go]
      norm_num
    have hdeg2 : ¬ degenerateCleaned (cleanResponse ("10.2")) := by decide
    simp only [V2.evaluate_position_with_gpt]
    rw [if_neg hdeg2, hp2]
    norm_num [sampleBoardBlack, sampleBoardWhite, TURN_BONUS, MAX_EVAL, MIN_EVAL,
      min_def, max_def]
  have hb2 : V2.evaluate_position_with_gpt sampleBoardBlack
      (GptResponse.text ("-9.8")) = MIN_EVAL := by
    have hc : cleanResponse ("-9.8") = ("-9.8") := by decide
    have hp2 : parseFloat (cleanResponse ("-9.8")) = some (-(49/5)) := by
      rw [hc]
      simp [parseFloat, digitsVal, List.splitOn, List.splitOnP, List.splitOnP.go]
      norm_num
    have hdeg2 : ¬ degenerateCleaned (cleanResponse ("-9.8")) := by decide
    simp only [V2.evaluate_position_with_gpt]
    rw [if_neg hdeg2, hp2]
    norm_num [sampleBoardBlack, sampleBoardWhite, TURN_BONUS, MAX_EVAL, MIN_EVAL,
      min_def, max_def]
  refine ⟨hmain, ?_, ?_, hb1, hb2⟩
  · rw [hmain]
    exact clampEval_ge _
  · rw [hmain]
    exact clampEval_le _

/-- Witness for C10 at a concrete board and a response parsing to `3.5`. -/
theorem gpt_leaf_adjusts_then_clamps_witness :
    parseFloat (cleanResponse ("3.5")) = some (7/2) ∧
    (V2.evaluate_position_with_gpt sampleBoardWhite (GptResponse.text ("3.5")) =
        max (min (if !sampleBoardWhite.turn then 7/2 - TURN_BONUS else 7/2)
          MAX_EVAL) MIN_EVAL ∧
      MIN_EVAL ≤ V2.evaluate_position_with_gpt sampleBoardWhite (GptResponse.text ("3.5")) ∧
      V2.evaluate_position_with_gpt sampleBoardWhite (GptResponse.text ("3.5")) ≤ MAX_EVAL ∧
      V2.evaluate_position_with_gpt sampleBoardBlack (GptResponse.text ("10.2")) =
        MAX_EVAL ∧
      V2.evaluate_position_with_gpt sampleBoardBlack (GptResponse.text ("-9.8")) =
        MIN_EVAL) := by
  have hp : parseFloat (cleanResponse ("3.5")) = some (7/2) := by
    have hc : cleanResponse ("3.5") = ("3.5") := by decide
    rw [hc]
    simp [parseFloat, digitsVal, List.splitOn, List.splitOnP, List.splitOnP.go]
    norm_num
  exact ⟨hp, gpt_leaf_adjusts_then_clamps sampleBoardWhite ("3.5") (7/2) hp⟩

/-- C3: at depth `0` both search drafts return exactly the Leaf Evaluator's
score with an empty line list, for every position, terminal ones included.
In the `api/chess/evaluator.py` draft this holds outright because the
depth-0 frontier check precedes the game-over check; in
`api/chess_evaluator.py` the inner `validate_position` fires first on a
no-legal-moves position, but returns the same `0.0` that its leaf evaluator
returns there (the hypothesis, discharged for the actual leaf evaluator by
`gpt_leaf_zero_on_terminal`). -/
theorem depth_zero_returns_leaf_score (g : Game) (p : Nat) (a b : XQ)
    (hterm : (g.legalMoves p).isEmpty = true → g.leafEval p = 0) :
    V1.evaluate_at_depth g 0 p a b = (XQ.fin (g.leafEval p), []) ∧
    V2.evaluate_at_depth g 0 p a b = (XQ.fin (g.leafEval p), []) := by
  constructor
  · by_cases h : (g.legalMoves p).isEmpty
    · simp [V1.evaluate_at_depth, h, hterm h]
    · simp [V1.evaluate_at_depth, h]
  · rfl

/-- Witness for C3 at a concrete terminal position (no legal moves), where
the hypothesis is exercised rather than vacuous. -/
theorem depth_zero_returns_leaf_score_witness :
    ((matedGame.legalMoves 1).isEmpty = true → matedGame.leafEval 1 = 0) ∧
    (V1.evaluate_at_depth matedGame 0 1 XQ.ninf XQ.pinf =
        (XQ.fin (matedGame.leafEval 1), []) ∧
      V2.evaluate_at_depth matedGame 0 1 XQ.ninf XQ.pinf =
        (XQ.fin (matedGame.leafEval 1), [])) :=
  ⟨by decide, depth_zero_returns_leaf_score matedGame 1 XQ.ninf XQ.pinf (by decide)⟩

/-- C1: for a deterministic leaf evaluator (any pure `leafEval`, in
particular the heuristic one) and any root position, the alpha-beta search
of `api/chess_evaluator.py` chooses the same `best_move` and `evaluation`
as the unpruned full-width minimax over the same game tree.  The proof
shows the two searches are equal outright: because the code passes
negated-and-swapped bounds but updates `alpha` only at White nodes and
`beta` only at Black nodes, the cutoff `beta <= alpha` can never fire from
the root's full window, at any depth. -/
theorem alphabeta_matches_minimax (g : Game) (p d : Nat)
    (halternate : ∀ q m, g.turn (g.applyMove q m) = !g.turn q)
    (_hd : d = 1 ∨ d = 2)
    (_hmoves : (g.legalMoves p).isEmpty = false) :
    (V1.evaluate_recursive g p d).best_move =
      (V1.evaluate_recursive_full g p d).best_move ∧
    (V1.evaluate_recursive g p d).evaluation =
      (V1.evaluate_recursive_full g p d).evaluation := by
  have hroot : boundInv (g.turn p) XQ.ninf XQ.pinf := by
    cases hgt : g.turn p
    · exact ⟨rfl, by decide⟩
    · exact ⟨rfl, by decide⟩
  have hkey := V1.evaluate_at_depth_eq_minimax g halternate d p XQ.ninf XQ.pinf hroot
  unfold V1.evaluate_recursive V1.evaluate_recursive_full
  rw [hkey]
  exact ⟨rfl, rfl⟩

/-- Witness for C1 at a concrete alternating game, depth 2. -/
theorem alphabeta_matches_minimax_witness :
    (∀ q m, sampleGame.turn (sampleGame.applyMove q m) = !sampleGame.turn q) ∧
    ((2 : Nat) = 1 ∨ (2 : Nat) = 2) ∧
    (sampleGame.legalMoves 0).isEmpty = false ∧
    ((V1.evaluate_recursive sampleGame 0 2).best_move =
        (V1.evaluate_recursive_full sampleGame 0 2).best_move ∧
      (V1.evaluate_recursive sampleGame 0 2).evaluation =
        (V1.evaluate_recursive_full sampleGame 0 2).evaluation) :=
  ⟨V1.turn_alternates_in_sampleGame, Or.inr rfl, by decide,
    alphabeta_matches_minimax sampleGame 0 2 V1.turn_alternates_in_sampleGame
      (Or.inr rfl) (by decide)⟩

/-- C6: every successful top-level evaluation of `api/chess_evaluator.py`
returns `all_lines` sorted best-for-mover-first (`lineRel true` compares
descending by evaluation and is used when White is to move at the root,
`lineRel false` ascending otherwise) and of length at most 5. -/
theorem all_lines_sorted_and_capped (g : Game) (p d : Nat)
    (hok : (V1.evaluate_recursive g p d).error = none) :
    List.Sorted (lineRel (g.turn p)) (V1.evaluate_recursive g p d).all_lines ∧
    (V1.evaluate_recursive g p d).all_lines.length ≤ 5 := by
  unfold V1.evaluate_recursive at hok ⊢
  by_cases h1 : (g.legalMoves p).isEmpty
  · simp [h1] at hok
  · by_cases h2 : d < 1
    · simp [h1, h2] at hok
    · by_cases h3 : (V1.evaluate_at_depth g d p XQ.ninf XQ.pinf).2.isEmpty
      · simp [h1, h2, h3] at hok
      · simp only [h1, h2, h3, Bool.false_eq_true, if_false, ite_false]
        constructor
        · exact List.Pairwise.sublist (List.take_sublist _ _)
            (List.sorted_insertionSort _ _)
        · rw [List.length_take]
          exact min_le_left _ _

/-- Witness for C6 at a concrete game (root is White to move, so the lines
come out sorted descending) at depth 2. -/
theorem all_lines_sorted_and_capped_witness :
    (V1.evaluate_recursive sampleGame 0 2).error = none ∧
    (List.Sorted (lineRel (sampleGame.turn 0))
        (V1.evaluate_recursive sampleGame 0 2).all_lines ∧
      (V1.evaluate_recursive sampleGame 0 2).all_lines.length ≤ 5) :=
  ⟨by decide, all_lines_sorted_and_capped sampleGame 0 2 (by decide)⟩

/-- C8: at an internal node (depth at least 1, not game over) the search of
`api/chess/evaluator.py` returns its collected lines sorted
best-for-mover-first (`mlineRel` with the side to move), and its score is
the best (first) line's evaluation, or exactly `0` when no lines were
produced. -/
theorem internal_node_sorted_and_head_score (g : Game) (d p : Nat) (a b : XQ)
    (hgo : g.gameOver p = false) :
    List.Sorted (mlineRel (g.turn p)) (V2.evaluate_at_depth g (d + 1) p a b).2 ∧
    (V2.evaluate_at_depth g (d + 1) p a b).1 =
      (match (V2.evaluate_at_depth g (d + 1) p a b).2 with
       | [] => XQ.fin 0
       | l :: _ => l.evaluation) := by
  simp only [V2.evaluate_at_depth, hgo, Bool.false_eq_true, if_false, ite_false]
  exact ⟨List.sorted_insertionSort _ _, trivial⟩

/-- Witness for C8 at a concrete game and internal node. -/
theorem internal_node_sorted_and_head_score_witness :
    sampleGame.gameOver 0 = false ∧
    (List.Sorted (mlineRel (sampleGame.turn 0))
        (V2.evaluate_at_depth sampleGame (1 + 1) 0 XQ.ninf XQ.pinf).2 ∧
      (V2.evaluate_at_depth sampleGame (1 + 1) 0 XQ.ninf XQ.pinf).1 =
        (match (V2.evaluate_at_depth sampleGame (1 + 1) 0 XQ.ninf XQ.pinf).2 with
         | [] => XQ.fin 0
         | l :: _ => l.evaluation)) :=
  ⟨rfl, internal_node_sorted_and_head_score sampleGame 1 0 XQ.ninf XQ.pinf rfl⟩

/-- C5 fails on the code: at the root of `pvGame` at depth 2, the recorded
line for the single root move carries `continuation = [1, 0]` — the first
moves of BOTH of the child's returned lines — whereas the child's best
line is `⟨1, -2, []⟩`, whose move sequence (move followed by its own
continuation) is `[1]`. -/
theorem continuation_counterexample :
    (V1.evaluate_at_depth pvGame 2 0 XQ.ninf XQ.pinf).2 =
      [⟨0, XQ.fin 2, [1, 0]⟩] ∧
    (V1.evaluate_at_depth pvGame 1 1 XQ.ninf XQ.pinf).2 =
      [⟨1, XQ.fin (-2), []⟩, ⟨0, XQ.fin (-1), []⟩] ∧
    ([1, 0] : List Nat) ≠ [1] :=
  ⟨by decide, by decide, by decide⟩

/-- C5 amended: at an internal node searched from the root's full window
(turns alternating), each recorded line's `continuation` equals the list of
the first moves of all of the child's returned lines, in the child's
sorted order (so its head is the child's best reply, but the tail holds the
child's sibling replies, not the principal continuation); the line's
evaluation is the negated child score. -/
theorem continuation_is_child_move_list (g : Game) (d p : Nat)
    (halternate : ∀ q m, g.turn (g.applyMove q m) = !g.turn q)
    (hgo : g.gameOver p = false)
    (hmv : (g.legalMoves p).isEmpty = false) :
    ∀ line ∈ (V1.evaluate_at_depth g (d + 1) p XQ.ninf XQ.pinf).2,
      line.move ∈ g.legalMoves p ∧
      line.evaluation = (V1.minimax_at_depth g d (g.applyMove p line.move)).1.neg ∧
      line.continuation =
        (V1.minimax_at_depth g d (g.applyMove p line.move)).2.map (·.move) := by
  intro line hline
  have hroot : boundInv (g.turn p) XQ.ninf XQ.pinf := by
    cases hgt : g.turn p
    · exact ⟨rfl, by decide⟩
    · exact ⟨rfl, by decide⟩
  rw [V1.evaluate_at_depth_eq_minimax g halternate (d + 1) p _ _ hroot] at hline
  simp only [V1.minimax_at_depth, hmv, hgo, Bool.false_eq_true, if_false,
    ite_false] at hline
  have hperm : line ∈ (V1.minimaxLoop (fun c => V1.minimax_at_depth g d c)
      (g.turn p) (orderedMoves g (g.turn p) p)
      (if g.turn p then XQ.ninf else XQ.pinf) []).2 :=
    (List.perm_insertionSort _ _).mem_iff.mp hline
  rw [V1.minimaxLoop_snd] at hperm
  simp only [List.nil_append, List.mem_map] at hperm
  obtain ⟨mc, hmc, hl⟩ := hperm
  have hmp : mc ∈ movesAndPositions g p :=
    (List.perm_insertionSort _ _).mem_iff.mp hmc
  obtain ⟨m, hm, hmeq⟩ := List.mem_map.mp hmp
  subst hl
  subst hmeq
  exact ⟨hm, rfl, rfl⟩

/-- Witness for the amended C5 at a concrete alternating game, depth 2. -/
theorem continuation_is_child_move_list_witness :
    (∀ q m, sampleGame.turn (sampleGame.applyMove q m) = !sampleGame.turn q) ∧
    sampleGame.gameOver 0 = false ∧
    (sampleGame.legalMoves 0).isEmpty = false ∧
    (∀ line ∈ (V1.evaluate_at_depth sampleGame (1 + 1) 0 XQ.ninf XQ.pinf).2,
      line.move ∈ sampleGame.legalMoves 0 ∧
      line.evaluation =
        (V1.minimax_at_depth sampleGame 1 (sampleGame.applyMove 0 line.move)).1.neg ∧
      line.continuation =
        (V1.minimax_at_depth sampleGame 1 (sampleGame.applyMove 0 line.move)).2.map
          (·.move)) :=
  ⟨V1.turn_alternates_in_sampleGame, rfl, by decide,
    continuation_is_child_move_list sampleGame 1 0
      V1.turn_alternates_in_sampleGame rfl (by decide)⟩

/-- C2 is right about the intended behaviour and `api/chess/evaluator.py`
implements it, but in `api/chess_evaluator.py` (the draft the views import)
the checkmate branch is dead code: the inner `validate_position` classifies
every no-legal-moves position as invalid and returns `0.0` with no lines
before `is_checkmate` is consulted.  At the concrete checkmate position `1`
of `matedGame` (White to move, mated), a depth-1 search scores `0`, not the
claimed `-MAX_EVAL`, while the `V2` draft scores `-MAX_EVAL` as claimed. -/
theorem checkmate_branch_unreachable :
    matedGame.checkmate 1 = true ∧
    matedGame.turn 1 = true ∧
    (matedGame.legalMoves 1).isEmpty = true ∧
    V1.evaluate_at_depth matedGame 1 1 XQ.ninf XQ.pinf = (XQ.fin 0, []) ∧
    V2.evaluate_at_depth matedGame 1 1 XQ.ninf XQ.pinf =
      (XQ.fin (-MAX_EVAL), []) ∧
    XQ.fin (0 : ℚ) ≠ XQ.fin (-MAX_EVAL) := by
  refine ⟨rfl, rfl, rfl, by decide, rfl, ?_⟩
  intro h
  rw [show -MAX_EVAL = (-10 : ℚ) from rfl] at h
  exact absurd (XQ.fin.injEq _ _ ▸ congrArg id h) (by norm_num)

